import Mathlib

/-!
Verification of the buffered Azure-Storage-Blob stream adapter
(`smart_open/asb.py`): a shallow embedding of `_RawReader`, `Reader`,
`Writer` and the `open` factory as pure state-passing functions over byte
sequences, together with proofs of the specified stream properties.

Bytes are modelled as `List Nat`; machine strings such as the open mode as
`String`.  Remote transport effects are made explicit: the blob's remote
content is a field of the state, and a `downloads` counter records every
ranged-download call actually issued, so "no remote call" properties are
statable.  The two `while` loops of the source (`Reader._fill_buffer` and
`Reader.readline`) are modelled with an explicit fuel that provably exceeds
the number of iterations the Python loops perform on every state reachable
in the verified traces (each productive fetch advances the raw cursor by at
least one byte towards the recorded size, and a zero-byte fetch sets the
sticky EOF flag, so at most `size + 2` fill iterations occur from any
nonnegative raw position).
-/

namespace ASB

/-- A byte string, as in Python `bytes`: a finite sequence of byte values. -/
abbrev Bytes := List Nat

/-- Modelled from the spec: `smart_open.constants.BINARY_NEWLINE`, the fixed
line terminator `b"\n"` supplied by the factory (spec section 4.1/6). -/
def BINARY_NEWLINE : Bytes := [10]

/-- Modelled from the spec: `smart_open.constants.WHENCE_START` (seek from
start of stream). -/
def WHENCE_START : Int := 0

/-- Modelled from the spec: `smart_open.constants.WHENCE_CURRENT` (seek
relative to the current position). -/
def WHENCE_CURRENT : Int := 1

/-- Modelled from the spec: `smart_open.constants.WHENCE_END` (seek relative
to the end of the stream). -/
def WHENCE_END : Int := 2

/-- Modelled from the spec: `smart_open.constants.WHENCE_CHOICES`, the three
allowed whence values (spec section 4.2). -/
def WHENCE_CHOICES : List Int := [WHENCE_START, WHENCE_CURRENT, WHENCE_END]

/-- Modelled from the spec: `smart_open.constants.READ_BINARY` = `"rb"`. -/
def READ_BINARY : String := "rb"

/-- Modelled from the spec: `smart_open.constants.WRITE_BINARY` = `"wb"`. -/
def WRITE_BINARY : String := "wb"

/-- The Python exception classes that the adapter can raise, as a closed
error type: `NotImplementedError`, `ValueError`, `TypeError`, and any
transport-level error propagated from the storage client. -/
inductive Err where
  | notImplemented
  | valueError
  | typeError
  | transport
deriving DecidableEq

/-- State of `_RawReader`: the remote blob handle is represented by the
blob's actual remote `content`; `size` is the size recorded at construction
(`self._size`), `pos` the raw cursor (`self._position`), and `downloads`
counts every ranged-download call issued to the remote service. -/
structure RawReader where
  content : Bytes
  size : Nat
  pos : Int
  downloads : Nat
deriving DecidableEq

/-- `_RawReader.seek`: sets the raw cursor, no I/O, returns it. -/
def RawReader.seek (rr : RawReader) (position : Int) : Int × RawReader :=
  (position, { rr with pos := position })

/-- `_RawReader._download_blob_chunk`: if the raw cursor sits exactly at the
recorded size, do nothing (no remote call); otherwise issue one ranged
download from `pos`, of the whole rest for `size = -1` and of `size` bytes
otherwise, and count it.  (A negative offset would raise in the transport;
no verified trace reaches that case.) -/
def RawReader.downloadBlobChunk (rr : RawReader) (size : Int) : Bytes × RawReader :=
  if rr.pos = (rr.size : Int) then ([], rr)
  else
    let fetched :=
      if size = -1 then rr.content.drop rr.pos.toNat
      else (rr.content.drop rr.pos.toNat).take size.toNat
    (fetched, { rr with downloads := rr.downloads + 1 })

/-- `_RawReader.read`: returns empty bytes with no remote call once the raw
cursor is at or past the recorded size; otherwise downloads one chunk and
advances the raw cursor by the number of bytes actually returned. -/
def RawReader.read (rr : RawReader) (size : Int) : Bytes × RawReader :=
  if (rr.size : Int) ≤ rr.pos then ([], rr)
  else
    let p := rr.downloadBlobChunk size
    (p.1, { p.2 with pos := p.2.pos + p.1.length })

/-- Modelled from the spec: `smart_open.bytebuffer.ByteBuffer` (an external
dependency, "a growable byte queue supporting peek, bounded read, and fill
from a data source", spec sections 2 and 9).  `chunkSize` is its
`_chunk_size`; `data` the queue of fetched-but-undelivered bytes. -/
structure ByteBuffer where
  chunkSize : Nat
  data : Bytes
deriving DecidableEq

/-- Modelled from the spec: `len(buffer)` — the number of unread bytes. -/
def ByteBuffer.len (bb : ByteBuffer) : Nat := bb.data.length

/-- Modelled from the spec: `ByteBuffer.peek()` — the unread bytes, not
consumed. -/
def ByteBuffer.peek (bb : ByteBuffer) : Bytes := bb.data

/-- Modelled from the spec: `ByteBuffer.read(size)` for a nonnegative size
(the only way the Reader calls it): consume and return at most `size`
bytes. -/
def ByteBuffer.readBuf (bb : ByteBuffer) (size : Nat) : Bytes × ByteBuffer :=
  (bb.data.take size, { bb with data := bb.data.drop size })

/-- Modelled from the spec: `ByteBuffer.empty()` — discard all unread
bytes. -/
def ByteBuffer.emptyBuf (bb : ByteBuffer) : ByteBuffer := { bb with data := [] }

/-- Modelled from the spec: `ByteBuffer.fill(reader)` — request one chunk of
`_chunk_size` bytes from the data source, append whatever came back, and
return how many bytes were read. -/
def ByteBuffer.fill (bb : ByteBuffer) (rr : RawReader) : Nat × ByteBuffer × RawReader :=
  let p := rr.read (bb.chunkSize : Int)
  (p.1.length, { bb with data := bb.data ++ p.1 }, p.2)

/-- State of the public `Reader`: `raw` is its `_RawReader`, `size` its own
`self._size` (recorded once at construction), `pos` is `_current_pos`,
`part` is `_current_part`, `eof` the sticky `_eof` flag, `lineTerminator`
the fixed `_line_terminator`. -/
structure Reader where
  raw : RawReader
  size : Nat
  pos : Int
  part : ByteBuffer
  eof : Bool
  lineTerminator : Bytes
deriving DecidableEq

/-- `Reader.__init__`: the blob-properties lookup either yields a size
(`props = some n`) or fails (`props = none`); a failure is swallowed and the
size recorded as 0 (the bare `except:` at asb.py lines 163-166).  The raw
reader shares that recorded size; cursor 0, empty buffer, EOF clear. -/
def Reader.init (content : Bytes) (props : Option Nat) (bufferSize : Nat)
    (lineTerminator : Bytes) : Reader :=
  let size := match props with
    | some n => n
    | none => 0
  { raw := { content := content, size := size, pos := 0, downloads := 0 },
    size := size, pos := 0,
    part := { chunkSize := bufferSize, data := [] },
    eof := false, lineTerminator := lineTerminator }

/-- `Reader.tell`: the current logical position, no I/O. -/
def Reader.tell (r : Reader) : Int := r.pos

/-- `Reader._read_from_buffer`: remove at most `size` bytes from the buffer
(all of them when `size < 0`, the default `-1`) and advance the logical
cursor by the number removed. -/
def Reader.readFromBuffer (r : Reader) (size : Int) : Bytes × Reader :=
  let n := if 0 ≤ size then size.toNat else r.part.len
  let p := r.part.readBuf n
  (p.1, { r with part := p.2, pos := r.pos + p.1.length })

/-- The `while` loop of `Reader._fill_buffer`, with explicit fuel: while the
buffer holds fewer than `target` bytes and EOF is not flagged, fill one
chunk from the raw reader, flagging EOF when a fill returns zero bytes. -/
def Reader.fillLoopF : Nat → Nat → Reader → Reader
  | 0, _, r => r
  | Nat.succ fuel, target, r =>
    if r.part.len < target ∧ r.eof = false then
      let p := r.part.fill r.raw
      let r' := { r with part := p.2.1, raw := p.2.2 }
      let r'' := if p.1 = 0 then { r' with eof := true } else r'
      Reader.fillLoopF fuel target r''
    else r

/-- `Reader._fill_buffer(size)`: target is `size` when nonnegative, else the
buffer's chunk size.  Fuel `size + 2` dominates the iteration count of the
Python loop from every nonnegative raw position: each productive fetch
advances the raw cursor by at least one byte and never past the recorded
size, and the first zero-byte fetch sets the sticky EOF flag. -/
def Reader.fillBuffer (r : Reader) (size : Int) : Reader :=
  let target := if 0 ≤ size then size.toNat else r.part.chunkSize
  Reader.fillLoopF (r.size + 2) target r

/-- `Reader.read`: empty result for `size = 0`; for `size < 0` jump the
cursor to the recorded size, drain the buffer and then the raw reader; for
`size > 0` serve from the buffer when it holds enough, serve the short
remainder when EOF is flagged, and otherwise fill to `size` first. -/
def Reader.read (r : Reader) (size : Int) : Bytes × Reader :=
  if size = 0 then ([], r)
  else if size < 0 then
    let r1 := { r with pos := (r.size : Int) }
    let p := r1.readFromBuffer (-1)
    let q := p.2.raw.read (-1)
    (p.1 ++ q.1, { p.2 with raw := q.2 })
  else
    if size.toNat ≤ r.part.len then r.readFromBuffer size
    else if r.eof then r.readFromBuffer (-1)
    else (r.fillBuffer size).readFromBuffer size

/-- The absolute position `Reader.seek` computes for a (valid) whence:
`offset` from start, `pos + offset` from current, `size + offset` from
end. -/
def Reader.seekTarget (r : Reader) (offset : Int) (whence : Int) : Int :=
  if whence = WHENCE_START then offset
  else if whence = WHENCE_CURRENT then r.pos + offset
  else (r.size : Int) + offset

/-- The mutation `Reader.seek` performs after validating the whence: set the
cursor, reposition the raw reader, empty the buffer, recompute EOF as
"cursor equals recorded size", and return the new position. -/
def Reader.seekCore (r : Reader) (offset : Int) (whence : Int) : Int × Reader :=
  let newPosition := r.seekTarget offset whence
  let s := r.raw.seek newPosition
  let r' := { r with pos := newPosition, raw := s.2 }
  let r'' := { r' with part := r'.part.emptyBuf,
                       eof := decide (r'.pos = (r'.size : Int)) }
  (r''.pos, r'')

/-- `Reader.seek`: rejects a whence outside `WHENCE_CHOICES` with a
`ValueError` before any state change; otherwise performs the seek. -/
def Reader.seek (r : Reader) (offset : Int) (whence : Int) :
    Except Err (Int × Reader) :=
  if whence ∈ WHENCE_CHOICES then .ok (r.seekCore offset whence)
  else .error .valueError

/-- Python substring membership plus `.index`: the index of the first
occurrence of `pat` as a contiguous sublist, if any.  `startsAt` is the
prefix test at the head. -/
def startsAt : Bytes → Bytes → Bool
  | [], _ => true
  | _ :: _, [] => false
  | p :: ps, x :: xs => p = x && startsAt ps xs

/-- First index at which `pat` occurs as a contiguous sublist of the second
argument, `none` if it does not occur (Python `pat in xs` / `xs.index(pat)`). -/
def subIdx (pat : Bytes) : Bytes → Option Nat
  | [] => if startsAt pat [] then some 0 else none
  | x :: tl =>
    if startsAt pat (x :: tl) then some 0
    else (subIdx pat tl).map (· + 1)

/-- The `while` loop of `Reader.readline`, with explicit fuel: while not (EOF
and empty buffer), peek the buffer; if the terminator occurs, consume and
emit through its first occurrence and stop, else drain the whole buffer into
the output and refill. -/
def Reader.readlineLoopF : Nat → Bytes → Reader → Bytes × Reader
  | 0, acc, r => (acc, r)
  | Nat.succ fuel, acc, r =>
    if r.eof = true ∧ r.part.len = 0 then (acc, r)
    else
      let remainingBuffer := r.part.peek
      match subIdx r.lineTerminator remainingBuffer with
      | some nextNewline =>
        let p := r.readFromBuffer ((nextNewline : Int) + 1)
        (acc ++ p.1, p.2)
      | none =>
        let p := r.readFromBuffer (-1)
        let r' := p.2.fillBuffer (-1)
        Reader.readlineLoopF fuel (acc ++ p.1) r'

/-- `Reader.readline(limit)`: only `limit = -1` is implemented; anything
else raises `NotImplementedError` before touching any state.  The loop fuel
`size + buffered + 4` dominates the Python loop's iteration count: every
iteration that does not stop drains the buffer and fetches, and productive
fetches advance the raw cursor by at least one byte towards the recorded
size. -/
def Reader.readline (r : Reader) (limit : Int) : Except Err (Bytes × Reader) :=
  if limit = -1 then .ok (Reader.readlineLoopF (r.size + r.part.len + 4) [] r)
  else .error .notImplemented

/-- Convenience: the result of a successful `readline(-1)` call (the
verified traces are all successful; on the unreachable error the state is
returned unchanged with empty output). -/
def Reader.readlineOk (r : Reader) : Bytes × Reader :=
  (r.readline (-1)).toOption.getD ([], r)

/-- Modelled from the spec: the storage client's single-call upload
primitive consumed by the Writer — "single-call upload: (bytes) → commit,
fully replacing prior content" (spec section 6). -/
def uploadBlob (_remote : Bytes) (b : Bytes) : Bytes := b

/-- State of the public `Writer`: `client` is the nullable service-client
reference (`self._client`, `none` once closed), `remote` the blob's remote
content behind the retained blob handle, `totalSize` the running
`_total_size` counter. -/
structure Writer where
  client : Option Unit
  remote : Bytes
  totalSize : Nat
deriving DecidableEq

/-- `Writer.__init__`: open client reference, counter 0; the remote blob
keeps whatever content it had. -/
def Writer.init (remote : Bytes) : Writer :=
  { client := some (), remote := remote, totalSize := 0 }

/-- `Writer.closed`: true iff the client reference has been cleared. -/
def Writer.closed (w : Writer) : Bool := w.client.isNone

/-- `Writer.close`: clears the client reference (only) when not already
closed; the blob handle is retained. -/
def Writer.close (w : Writer) : Writer :=
  if w.closed then w else { w with client := none }

/-- `Writer.tell`: the running total-size counter. -/
def Writer.tell (w : Writer) : Nat := w.totalSize

/-- A Python object passed to `Writer.write`: either a binary buffer
(`bytes`/`bytearray`/`memoryview`) or anything else. -/
inductive PyBuf where
  | binary (b : Bytes)
  | nonBinary
deriving DecidableEq

/-- `Writer.write`: rejects non-binary input with a `TypeError` before any
state change; otherwise increments `_total_size` by the payload length and
then issues the upload, whose transport outcome is the explicit `uploadOk`
argument — on transport failure the exception propagates with the counter
already incremented and the remote content unchanged. -/
def Writer.write (w : Writer) (input : PyBuf) (uploadOk : Bool) :
    Except Err Nat × Writer :=
  match input with
  | .nonBinary => (.error .typeError, w)
  | .binary b =>
    let w1 := { w with totalSize := w.totalSize + b.length }
    if uploadOk then (.ok b.length, { w1 with remote := uploadBlob w1.remote b })
    else (.error .transport, w1)

/-- Result of the `open` factory: a reader or a writer. -/
inductive Opened where
  | rd (r : Reader)
  | wr (w : Writer)

/-- The `open` factory: dispatches on the mode string, raising
`NotImplementedError` for any mode other than `"rb"` and `"wb"` before
constructing anything. -/
def asbOpen (content : Bytes) (props : Option Nat) (writerRemote : Bytes)
    (mode : String) (bufferSize : Nat) : Except Err Opened :=
  if mode = READ_BINARY then
    .ok (.rd (Reader.init content props bufferSize BINARY_NEWLINE))
  else if mode = WRITE_BINARY then
    .ok (.wr (Writer.init writerRemote))
  else .error .notImplemented

/-- A public Reader operation, for trace-based invariants. -/
inductive ROp where
  | rseek (offset : Int) (whence : Int)
  | rread (size : Int)

/-- One public operation applied to a Reader state; an operation that raises
(invalid whence) leaves the state unchanged, as the Python code raises
before mutating. -/
def stepOp (r : Reader) (op : ROp) : Reader :=
  match op with
  | .rseek off wh =>
    match r.seek off wh with
    | .ok p => p.2
    | .error _ => r
  | .rread sz => (r.read sz).2

/-- Run a trace of public operations. -/
def runOps (r : Reader) : List ROp → Reader
  | [] => r
  | op :: rest => runOps (stepOp r op) rest

/-- Checks, along the run, that every (valid-whence) seek in the trace
computes a nonnegative target position. -/
def seeksOk (r : Reader) : List ROp → Bool
  | [] => true
  | op :: rest =>
    (match op with
     | .rseek off wh =>
       if wh ∈ WHENCE_CHOICES then decide (0 ≤ r.seekTarget off wh) else true
     | .rread _ => true) && seeksOk (stepOp r op) rest

/-- The byte string `b"hello"`. -/
def HELLO : Bytes := [104, 101, 108, 108, 111]

/-- The byte string `b"world"`. -/
def WORLD : Bytes := [119, 111, 114, 108, 100]

/-- The byte string `b"ab\ncd\nef"` of the line-read property. -/
def ABCDEF_LINES : Bytes := [97, 98, 10, 99, 100, 10, 101, 102]

/-- `DEFAULT_BUFFER_SIZE = 4 * 1024**2`, the Reader's default buffer size. -/
def DEFAULT_BUFFER_SIZE : Nat := 4 * 1024 ^ 2

/-- Coherence of a Reader state over blob content `C`, with explicit
witnesses: `p` is the logical cursor, `b` the number of buffered unread
bytes; the raw cursor sits at `p + b ≤ |C|`, and the buffer holds exactly
the bytes of `C` between the two cursors. -/
def SInvW (C : Bytes) (p b : Nat) (r : Reader) : Prop :=
  r.raw.content = C ∧
  r.raw.size = C.length ∧
  r.size = C.length ∧
  r.pos = (p : Int) ∧
  r.raw.pos = ((p : Int) + (b : Int)) ∧
  p + b ≤ C.length ∧
  r.part.data = (C.drop p).take b

/-- Coherence with the witnesses existentially quantified. -/
def SInv (C : Bytes) (r : Reader) : Prop := ∃ p b, SInvW C p b r

theorem sInvW_len {C : Bytes} {p b : Nat} {r : Reader} (h : SInvW C p b r) :
    r.part.len = b := by
  obtain ⟨-, -, -, -, -, hle, hdata⟩ := h
  simp [ByteBuffer.len, hdata, List.length_take, List.length_drop]
  omega

theorem sInvW_init (C : Bytes) (bufferSize : Nat) (lineTerminator : Bytes) :
    SInvW C 0 0 (Reader.init C (some C.length) bufferSize lineTerminator) := by
  refine ⟨rfl, rfl, rfl, rfl, rfl, by omega, rfl⟩

/-- `readFromBuffer` at a nonnegative size, unfolded. -/
theorem rfb_nonneg (r : Reader) (k : Nat) :
    r.readFromBuffer (k : Int)
      = (r.part.data.take k,
         { r with part := { r.part with data := r.part.data.drop k },
                  pos := r.pos + (r.part.data.take k).length }) := by
  simp [Reader.readFromBuffer, ByteBuffer.readBuf, ByteBuffer.len,
    if_pos (Int.natCast_nonneg k)]

/-- `readFromBuffer` at the default size `-1`, unfolded: drains the whole
buffer. -/
theorem rfb_neg (r : Reader) :
    r.readFromBuffer (-1)
      = (r.part.data,
         { r with part := { r.part with data := [] },
                  pos := r.pos + r.part.data.length }) := by
  simp [Reader.readFromBuffer, ByteBuffer.readBuf, ByteBuffer.len]

/-- The fill loop never moves the logical cursor. -/
theorem fillLoopF_pos (fuel target : Nat) (r : Reader) :
    (Reader.fillLoopF fuel target r).pos = r.pos := by
  induction fuel generalizing r with
  | zero => rfl
  | succ fuel ih =>
    rw [Reader.fillLoopF]
    split
    · dsimp only
      split
      · rw [ih]
      · rw [ih]
    · rfl

/-- The fill loop never changes the recorded stream size. -/
theorem fillLoopF_size (fuel target : Nat) (r : Reader) :
    (Reader.fillLoopF fuel target r).size = r.size := by
  induction fuel generalizing r with
  | zero => rfl
  | succ fuel ih =>
    rw [Reader.fillLoopF]
    split
    · dsimp only
      split
      · rw [ih]
      · rw [ih]
    · rfl

/-- The fill loop never changes the buffer's chunk size. -/
theorem fillLoopF_chunkSize (fuel target : Nat) (r : Reader) :
    (Reader.fillLoopF fuel target r).part.chunkSize = r.part.chunkSize := by
  induction fuel generalizing r with
  | zero => rfl
  | succ fuel ih =>
    rw [Reader.fillLoopF]
    split
    · dsimp only
      split
      · rw [ih]
        rfl
      · rw [ih]
        rfl
    · rfl

/-- With the EOF flag set, the fill loop is the identity. -/
theorem fillLoopF_eof (fuel target : Nat) (r : Reader) (h : r.eof = true) :
    Reader.fillLoopF fuel target r = r := by
  cases fuel with
  | zero => rfl
  | succ fuel =>
    rw [Reader.fillLoopF]
    rw [if_neg]
    intro hc
    rw [h] at hc
    exact absurd hc.2 (by simp)

/-- One `_RawReader.read` of a chunk under the coherence invariant: the
fetched bytes are the next `chunkSize` bytes of `C` after the raw cursor,
the raw cursor advances by the number actually available, and the blob
fields are untouched. -/
theorem raw_read_chunk {C : Bytes} {p b : Nat} {r : Reader} (h : SInvW C p b r) :
    (r.raw.read (r.part.chunkSize : Int)).1 = (C.drop (p + b)).take r.part.chunkSize ∧
    (r.raw.read (r.part.chunkSize : Int)).2.pos
      = ((p + b + min r.part.chunkSize (C.length - (p + b)) : Nat) : Int) ∧
    (r.raw.read (r.part.chunkSize : Int)).2.content = C ∧
    (r.raw.read (r.part.chunkSize : Int)).2.size = C.length := by
  obtain ⟨hcon, hrsize, hsize, hpos, hrpos, hle, hdata⟩ := h
  have hrp : r.raw.pos = ((p + b : Nat) : Int) := by rw [hrpos]; push_cast; ring
  by_cases hfull : C.length ≤ p + b
  · have hread : r.raw.read (r.part.chunkSize : Int) = ([], r.raw) := by
      rw [RawReader.read, if_pos]
      rw [hrp, hrsize]
      omega
    have hdropnil : C.drop (p + b) = [] :=
      List.drop_eq_nil_of_le (by omega)
    rw [hread, hdropnil]
    refine ⟨by simp, ?_, hcon, hrsize⟩
    rw [hrp]
    have : min r.part.chunkSize (C.length - (p + b)) = 0 := by omega
    rw [this]
    omega
  · have hne : ¬ ((r.raw.size : Int) ≤ r.raw.pos) := by
      rw [hrp, hrsize]
      omega
    have hne2 : ¬ (r.raw.pos = (r.raw.size : Int)) := by
      rw [hrp, hrsize]
      omega
    have hne3 : ¬ ((r.part.chunkSize : Int) = -1) := by omega
    have hdown1 : (r.raw.downloadBlobChunk (r.part.chunkSize : Int)).1
        = (C.drop (p + b)).take r.part.chunkSize := by
      rw [RawReader.downloadBlobChunk, if_neg hne2, if_neg hne3]
      dsimp only
      rw [hcon, hrp, Int.toNat_natCast, Int.toNat_natCast]
    have hdown2 : (r.raw.downloadBlobChunk (r.part.chunkSize : Int)).2
        = { r.raw with downloads := r.raw.downloads + 1 } := by
      rw [RawReader.downloadBlobChunk, if_neg hne2, if_neg hne3]
    have hflen : ((C.drop (p + b)).take r.part.chunkSize).length
        = min r.part.chunkSize (C.length - (p + b)) := by
      rw [List.length_take, List.length_drop]
    rw [RawReader.read, if_neg hne]
    dsimp only
    rw [hdown1, hdown2]
    refine ⟨rfl, ?_, hcon, hrsize⟩
    dsimp only
    rw [hflen, hrp]
    push_cast
    ring

/-- One `ByteBuffer.fill` call under the coherence invariant, component by
component: the reported count, the grown buffer, and the advanced raw
cursor. -/
theorem fill_comp {C : Bytes} {p b : Nat} {r : Reader} (h : SInvW C p b r) :
    (r.part.fill r.raw).1 = min r.part.chunkSize (C.length - (p + b)) ∧
    (r.part.fill r.raw).2.1.chunkSize = r.part.chunkSize ∧
    (r.part.fill r.raw).2.1.data
      = (C.drop p).take (b + min r.part.chunkSize (C.length - (p + b))) ∧
    (r.part.fill r.raw).2.2.pos
      = ((p + b + min r.part.chunkSize (C.length - (p + b)) : Nat) : Int) ∧
    (r.part.fill r.raw).2.2.content = C ∧
    (r.part.fill r.raw).2.2.size = C.length := by
  obtain ⟨h1, h2, h3, h4⟩ := raw_read_chunk h
  obtain ⟨hcon, hrsize, hsize, hpos, hrpos, hle, hdata⟩ := h
  rw [ByteBuffer.fill]
  dsimp only
  refine ⟨?_, rfl, ?_, h2, h3, h4⟩
  · rw [h1, List.length_take, List.length_drop]
  · rw [h1, hdata]
    have hadd : (C.drop p).take (b + r.part.chunkSize)
        = (C.drop p).take b ++ ((C.drop p).drop b).take r.part.chunkSize :=
      List.take_add (C.drop p) b r.part.chunkSize
    rw [List.drop_drop] at hadd
    rw [← hadd, List.take_eq_take, List.length_drop]
    omega

/-- One fill step re-establishes the coherence invariant on the updated
reader state, whatever the EOF flag is set to. -/
theorem fill_sinv_step {C : Bytes} {p b : Nat} {r : Reader} (h : SInvW C p b r)
    (e : Bool) :
    SInvW C p (b + min r.part.chunkSize (C.length - (p + b)))
      { raw := (r.part.fill r.raw).2.2, size := r.size, pos := r.pos,
        part := (r.part.fill r.raw).2.1, eof := e,
        lineTerminator := r.lineTerminator } := by
  obtain ⟨hc1, hc2, hc3, hc4, hc5, hc6⟩ := fill_comp h
  obtain ⟨k1, k2, k3, k4, k5, k6, k7⟩ := h
  refine ⟨hc5, hc6, k3, k4, ?_, ?_, hc3⟩
  · show (r.part.fill r.raw).2.2.pos = _
    rw [hc4]
    push_cast
    ring
  · omega

/-- The fill loop preserves the coherence invariant, with the logical
cursor fixed and only the buffered count growing. -/
theorem fillLoopF_sinv {C : Bytes} (fuel target : Nat) :
    ∀ (r : Reader) (p b : Nat), SInvW C p b r →
      ∃ b', SInvW C p b' (Reader.fillLoopF fuel target r) := by
  induction fuel with
  | zero => exact fun r p b h => ⟨b, h⟩
  | succ fuel ih =>
    intro r p b h
    rw [Reader.fillLoopF]
    split
    · dsimp only
      split
      · exact ih _ p _ (fill_sinv_step h true)
      · exact ih _ p _ (fill_sinv_step h r.eof)
    · exact ⟨b, h⟩

/-- `_fill_buffer` preserves the coherence invariant. -/
theorem fillBuffer_sinv {C : Bytes} {p b : Nat} {r : Reader} (h : SInvW C p b r)
    (sz : Int) : ∃ b', SInvW C p b' (r.fillBuffer sz) := by
  unfold Reader.fillBuffer
  exact fillLoopF_sinv _ _ _ p b h

/-- When the requested target exceeds what the stream can still deliver and
the chunk size is positive, the fill loop (with sufficient fuel) drains the
remote stream completely: the buffer ends holding all of `C` past the
cursor, the raw cursor reaches the recorded size, and EOF is flagged. -/
theorem fillLoopF_exhaust {C : Bytes} (fuel : Nat) :
    ∀ (target : Nat) (r : Reader) (p b : Nat), SInvW C p b r →
      r.eof = false → 0 < r.part.chunkSize → C.length - p < target →
      C.length - (p + b) + 2 ≤ fuel →
      SInvW C p (C.length - p) (Reader.fillLoopF fuel target r) ∧
      (Reader.fillLoopF fuel target r).eof = true := by
  induction fuel with
  | zero =>
    intro target r p b h heof hch ht hf
    omega
  | succ fuel ih =>
    intro target r p b h heof hch ht hf
    have hlen := sInvW_len h
    have hle : p + b ≤ C.length := h.2.2.2.2.2.1
    have hcond : r.part.len < target ∧ r.eof = false := by
      refine ⟨?_, heof⟩
      rw [hlen]
      omega
    rw [Reader.fillLoopF, if_pos hcond]
    dsimp only
    obtain ⟨hc1, hc2, hc3, hc4, hc5, hc6⟩ := fill_comp h
    by_cases hfull : C.length ≤ p + b
    · have hn : (r.part.fill r.raw).1 = 0 := by
        rw [hc1]
        omega
      rw [if_pos hn]
      rw [fillLoopF_eof fuel target _ rfl]
      refine ⟨?_, rfl⟩
      have hstep := fill_sinv_step h true
      have hbeq : b + min r.part.chunkSize (C.length - (p + b))
          = C.length - p := by omega
      rw [hbeq] at hstep
      exact hstep
    · have hn : ¬ (r.part.fill r.raw).1 = 0 := by
        rw [hc1]
        omega
      rw [if_neg hn]
      refine ih target _ p (b + min r.part.chunkSize (C.length - (p + b)))
        (fill_sinv_step h r.eof) heof ?_ ht ?_
      · show (r.part.fill r.raw).2.1.chunkSize > 0
        rw [hc2]
        exact hch
      · omega

/-- `readFromBuffer` never changes the EOF flag. -/
theorem rfb_eof (r : Reader) (sz : Int) :
    (r.readFromBuffer sz).2.eof = r.eof := rfl

/-- `readFromBuffer` never changes the raw reader. -/
theorem rfb_raw (r : Reader) (sz : Int) :
    (r.readFromBuffer sz).2.raw = r.raw := rfl

/-- `_read_from_buffer(n)` for `n ≥ 0` under the coherence invariant:
delivers the next `min n b` buffered bytes of `C` and advances the logical
cursor past them, keeping the invariant. -/
theorem rfb_sinv {C : Bytes} {p b : Nat} {r : Reader} (h : SInvW C p b r)
    (n : Nat) :
    (r.readFromBuffer (n : Int)).1 = (C.drop p).take (min n b) ∧
    SInvW C (p + min n b) (b - n) (r.readFromBuffer (n : Int)).2 := by
  obtain ⟨hcon, hrsize, hsize, hpos, hrpos, hle, hdata⟩ := h
  rw [rfb_nonneg, hdata]
  constructor
  · rw [List.take_take]
  · dsimp only
    refine ⟨hcon, hrsize, hsize, ?_, ?_, by omega, ?_⟩
    · rw [hpos, List.length_take, List.length_take, List.length_drop]
      have : min n (min b (C.length - p)) = min n b := by omega
      rw [this]
      push_cast
      ring
    · rw [hrpos]
      push_cast
      omega
    · rw [List.drop_take, List.drop_drop]
      by_cases hnb : n ≤ b
      · have : min n b = n := by omega
        rw [this]
      · have h1 : b - n = 0 := by omega
        rw [h1]
        simp

/-- `_read_from_buffer(-1)` under the coherence invariant: drains the whole
buffer, delivering the buffered segment and moving the cursor to the raw
cursor. -/
theorem rfb_drain_sinv {C : Bytes} {p b : Nat} {r : Reader} (h : SInvW C p b r) :
    (r.readFromBuffer (-1)).1 = (C.drop p).take b ∧
    SInvW C (p + b) 0 (r.readFromBuffer (-1)).2 ∧
    (r.readFromBuffer (-1)).2.part.data = [] := by
  obtain ⟨hcon, hrsize, hsize, hpos, hrpos, hle, hdata⟩ := h
  rw [rfb_neg, hdata]
  refine ⟨rfl, ⟨hcon, hrsize, hsize, ?_, ?_, by omega, ?_⟩, rfl⟩
  · dsimp only
    rw [hpos, List.length_take, List.length_drop]
    have : min b (C.length - p) = b := by omega
    rw [this]
    push_cast
    ring
  · dsimp only
    rw [hrpos]
    push_cast
    ring
  · simp

/-- `read(size)` for `size < 0` under the coherence invariant: delivers all
of `C` from the logical cursor on, leaves the buffer empty and the raw
cursor at the recorded size, and (the cursor-accounting quirk) leaves the
logical cursor at `size + b` where `b` was the number of buffered bytes. -/
theorem read_neg_spec {C : Bytes} {p b : Nat} {r : Reader} (h : SInvW C p b r)
    (sz : Int) (hsz : sz < 0) :
    (r.read sz).1 = C.drop p ∧
    (r.read sz).2.part.data = [] ∧
    (r.read sz).2.raw.pos = (C.length : Int) ∧
    (r.read sz).2.raw.size = C.length ∧
    (r.read sz).2.pos = ((C.length + b : Nat) : Int) := by
  obtain ⟨hcon, hrsize, hsize, hpos, hrpos, hle, hdata⟩ := h
  have hne0 : ¬ sz = 0 := by omega
  have hlen : r.part.data.length = b := by
    rw [hdata, List.length_take, List.length_drop]
    omega
  have hrp : r.raw.pos = ((p + b : Nat) : Int) := by
    rw [hrpos]
    push_cast
    ring
  rw [Reader.read, if_neg hne0, if_pos hsz]
  dsimp only
  rw [rfb_neg]
  dsimp only
  by_cases hfull : C.length ≤ p + b
  · have hrd : r.raw.read (-1) = ([], r.raw) := by
      rw [RawReader.read, if_pos]
      rw [hrp, hrsize]
      omega
    rw [hrd]
    dsimp only
    refine ⟨?_, rfl, ?_, hrsize, ?_⟩
    · rw [List.append_nil, hdata]
      refine List.take_of_length_le ?_
      rw [List.length_drop]
      omega
    · rw [hrp]
      omega
    · rw [hsize, hlen]
      push_cast
      ring
  · have hltn : p + b < C.length := by omega
    have hne : ¬ ((r.raw.size : Int) ≤ r.raw.pos) := by
      rw [hrp, hrsize]
      omega
    have hne2 : ¬ (r.raw.pos = (r.raw.size : Int)) := by
      rw [hrp, hrsize]
      omega
    have hdown : r.raw.downloadBlobChunk (-1)
        = (C.drop (p + b), { r.raw with downloads := r.raw.downloads + 1 }) := by
      rw [RawReader.downloadBlobChunk, if_neg hne2, if_pos rfl]
      dsimp only
      rw [hcon, hrp, Int.toNat_natCast]
    have hrd : r.raw.read (-1)
        = (C.drop (p + b),
           { r.raw with
               pos := ((p + b : Nat) : Int) + ((C.drop (p + b)).length : Int),
               downloads := r.raw.downloads + 1 }) := by
      rw [RawReader.read, if_neg hne]
      dsimp only
      rw [hdown]
      dsimp only
      rw [hrp]
    rw [hrd]
    dsimp only
    refine ⟨?_, rfl, ?_, hrsize, ?_⟩
    · rw [hdata]
      have hd : C.drop (p + b) = (C.drop p).drop b := by
        rw [List.drop_drop]
      rw [hd, List.take_append_drop]
    · rw [List.length_drop]
      push_cast
      omega
    · rw [hsize, hlen]
      push_cast
      ring

/-- A `read` with negative size on a reader whose buffer is empty and whose
raw cursor is at or past the recorded size returns empty bytes. -/
theorem read_neg_empty {r : Reader} (hdata : r.part.data = [])
    (hpos : (r.raw.size : Int) ≤ r.raw.pos) (sz : Int) (hsz : sz < 0) :
    (r.read sz).1 = [] := by
  have hne0 : ¬ sz = 0 := by omega
  rw [Reader.read, if_neg hne0, if_pos hsz]
  dsimp only
  rw [rfb_neg]
  dsimp only
  have hrd : r.raw.read (-1) = ([], r.raw) := by
    rw [RawReader.read, if_pos hpos]
  rw [hrd, hdata]
  rfl

/-- `read(k)` for `k > 0` under the coherence invariant: the delivered
bytes are the next `j` bytes of `C` from the logical cursor, and the
invariant is re-established with the cursor advanced by `j`. -/
theorem read_pos_spec {C : Bytes} {p b : Nat} {r : Reader} (h : SInvW C p b r)
    (k : Nat) (hk : 0 < k) :
    ∃ j b', (r.read (k : Int)).1 = (C.drop p).take j ∧
      SInvW C (p + j) b' (r.read (k : Int)).2 := by
  have hne0 : ¬ (k : Int) = 0 := by omega
  have hnneg : ¬ ((k : Int) < 0) := by omega
  rw [Reader.read, if_neg hne0, if_neg hnneg]
  by_cases hbk : (k : Int).toNat ≤ r.part.len
  · rw [if_pos hbk]
    obtain ⟨ho, hs⟩ := rfb_sinv h k
    exact ⟨min k b, b - k, ho, hs⟩
  · rw [if_neg hbk]
    by_cases heof : r.eof = true
    · rw [if_pos heof]
      obtain ⟨ho, hs, -⟩ := rfb_drain_sinv h
      exact ⟨b, 0, ho, hs⟩
    · rw [if_neg heof]
      obtain ⟨b1, h1⟩ := fillBuffer_sinv h (k : Int)
      obtain ⟨ho, hs⟩ := rfb_sinv h1 k
      exact ⟨min k b1, b1 - k, ho, hs⟩

/-- `seekCore` from the start of the stream, unfolded. -/
theorem seekCore_start (r : Reader) (off : Int) :
    r.seekCore off WHENCE_START
      = (off, { r with pos := off,
                       raw := { r.raw with pos := off },
                       part := { r.part with data := [] },
                       eof := decide (off = (r.size : Int)) }) := by
  unfold Reader.seekCore Reader.seekTarget RawReader.seek ByteBuffer.emptyBuf
  rw [if_pos rfl]

/-- A seek from the start to a position within the stream re-establishes
the coherence invariant with an empty buffer, recomputes EOF as "target
equals recorded size", and keeps the chunk size. -/
theorem seek_start_sinv {C : Bytes} {p b : Nat} {r : Reader} (h : SInvW C p b r)
    (q : Nat) (hq : q ≤ C.length) :
    SInvW C q 0 ((r.seekCore ((q : Nat) : Int) WHENCE_START).2) ∧
    ((r.seekCore ((q : Nat) : Int) WHENCE_START).2).eof
      = decide (((q : Nat) : Int) = (C.length : Int)) ∧
    ((r.seekCore ((q : Nat) : Int) WHENCE_START).2).part.chunkSize
      = r.part.chunkSize := by
  obtain ⟨hcon, hrsize, hsize, hpos, hrpos, hle, hdata⟩ := h
  rw [seekCore_start]
  dsimp only
  refine ⟨⟨hcon, hrsize, hsize, rfl, ?_, by omega, by simp⟩, by rw [hsize], rfl⟩
  push_cast
  ring

/-- `_fill_buffer` with a nonnegative requested size, unfolded to the fill
loop at its fuel. -/
theorem fillBuffer_eq_of_nonneg (r : Reader) (sz : Int) (h : 0 ≤ sz) :
    r.fillBuffer sz = Reader.fillLoopF (r.size + 2) sz.toNat r := by
  unfold Reader.fillBuffer
  rw [if_pos h]

end ASB

namespace ASB

/-- C2: for every blob content, on a freshly positioned Reader the
sequence `seek(0); read(-1)` returns exactly the content, and an
immediately following second `read(-1)` returns empty bytes. -/
theorem c2_read_all_idempotent (content : Bytes) (bufferSize : Nat) :
    let r0 := Reader.init content (some content.length) bufferSize
      BINARY_NEWLINE
    let r1 := (r0.seekCore 0 WHENCE_START).2
    r0.seek 0 WHENCE_START = Except.ok (0, r1) ∧
    (r1.read (-1)).1 = content ∧
    ((r1.read (-1)).2.read (-1)).1 = [] := by
  intro r0 r1
  have h0 : SInvW content 0 0 r0 := sInvW_init content bufferSize BINARY_NEWLINE
  have h1 : SInvW content 0 0 r1 := (seek_start_sinv h0 0 (by omega)).1
  obtain ⟨o1, d1, rp1, rs1, -⟩ := read_neg_spec h1 (-1) (by norm_num)
  refine ⟨rfl, ?_, read_neg_empty d1 ?_ (-1) (by norm_num)⟩
  · rw [o1, List.drop_zero]
  · rw [rp1, rs1]

/-- C3: for every blob content and split point `k ≥ 0`, a Reader at
position 0 satisfies `read(k) ++ read(-1) = read(-1)-from-0 = C`: reading
in two calls yields the same byte sequence as the single full read. -/
theorem c3_split_read_equals_full (content : Bytes) (bufferSize k : Nat) :
    let r0 := Reader.init content (some content.length) bufferSize
      BINARY_NEWLINE
    (r0.read (k : Int)).1 ++ ((r0.read (k : Int)).2.read (-1)).1
      = (r0.read (-1)).1 ∧
    (r0.read (-1)).1 = content := by
  intro r0
  have h0 : SInvW content 0 0 r0 := sInvW_init content bufferSize BINARY_NEWLINE
  have hfull := read_neg_spec h0 (-1) (by norm_num)
  have hc : (r0.read (-1)).1 = content := by
    rw [hfull.1, List.drop_zero]
  refine ⟨?_, hc⟩
  by_cases hk : k = 0
  · subst hk
    have hz : r0.read ((0 : Nat) : Int) = ([], r0) := by
      rw [Reader.read, if_pos (by norm_num)]
    rw [hz, hc]
    exact List.nil_append content
  · obtain ⟨j, b', ho, hs⟩ := read_pos_spec h0 k (by omega)
    rw [Nat.zero_add] at hs
    obtain ⟨o2, -, -, -, -⟩ := read_neg_spec hs (-1) (by norm_num)
    rw [ho, o2, hc, List.drop_zero]
    exact List.take_append_drop j content

/-- C4: on a blob of size `N ≥ 3`, a Reader seeked to position `N - 3`
returns exactly the last 3 bytes from `read(10)` (a short read, not an
error), and a subsequent `read(1)` returns empty bytes with the cursor
(`tell()`) unchanged. -/
theorem c4_short_read_at_eof (content : Bytes) (bufferSize : Nat)
    (h3 : 3 ≤ content.length) (hb : 0 < bufferSize) :
    let r0 := Reader.init content (some content.length) bufferSize
      BINARY_NEWLINE
    let r1 := (r0.seekCore ((content.length - 3 : Nat) : Int) WHENCE_START).2
    (r1.read 10).1 = content.drop (content.length - 3) ∧
    (content.drop (content.length - 3)).length = 3 ∧
    ((r1.read 10).2.read 1).1 = [] ∧
    ((r1.read 10).2.read 1).2.pos = (r1.read 10).2.pos := by
  intro r0 r1
  have h0 : SInvW content 0 0 r0 := sInvW_init content bufferSize BINARY_NEWLINE
  obtain ⟨h1, heq, hck⟩ := seek_start_sinv h0 (content.length - 3) (by omega)
  have heof1 : r1.eof = false := by
    rw [heq]
    apply decide_eq_false
    intro hcc
    have : content.length - 3 = content.length := by exact_mod_cast hcc
    omega
  have hlen1 : r1.part.len = 0 := sInvW_len h1
  rw [show (10 : Int) = ((10 : Nat) : Int) from by norm_num,
    show (1 : Int) = ((1 : Nat) : Int) from by norm_num]
  have hr10 : r1.read ((10 : Nat) : Int)
      = (r1.fillBuffer ((10 : Nat) : Int)).readFromBuffer ((10 : Nat) : Int) := by
    rw [Reader.read, if_neg (by norm_num), if_neg (by norm_num), if_neg ?_,
      if_neg ?_]
    · rw [heof1]
      simp
    · rw [Int.toNat_natCast, hlen1]
      norm_num
  have hfb : r1.fillBuffer ((10 : Nat) : Int)
      = Reader.fillLoopF (r1.size + 2) 10 r1 := by
    rw [fillBuffer_eq_of_nonneg r1 _ (Int.natCast_nonneg 10),
      Int.toNat_natCast]
  have hsz1 : r1.size = content.length := h1.2.2.1
  obtain ⟨h2, heof2⟩ := fillLoopF_exhaust (r1.size + 2) 10 r1
    (content.length - 3) 0 h1 heof1 (by rw [hck]; exact hb)
    (by omega) (by rw [hsz1]; omega)
  have h33 : content.length - (content.length - 3) = 3 := by omega
  rw [h33] at h2
  obtain ⟨ho, hs⟩ := rfb_sinv h2 10
  have hmin3 : min 10 3 = 3 := by norm_num
  rw [hmin3] at ho hs
  have hNN : content.length - 3 + 3 = content.length := by omega
  rw [hNN] at hs
  have hdlen : (content.drop (content.length - 3)).length = 3 := by
    rw [List.length_drop]
    omega
  have htake3 : (content.drop (content.length - 3)).take 3
      = content.drop (content.length - 3) :=
    List.take_of_length_le (by omega)
  have hout1 : (r1.read ((10 : Nat) : Int)).1
      = content.drop (content.length - 3) := by
    rw [hr10, hfb, ho, htake3]
  have hs2 : SInvW content content.length 0 (r1.read ((10 : Nat) : Int)).2 := by
    rw [hr10, hfb]
    exact hs
  have heof3 : (r1.read ((10 : Nat) : Int)).2.eof = true := by
    rw [hr10, hfb, rfb_eof]
    exact heof2
  have hlen2 : (r1.read ((10 : Nat) : Int)).2.part.len = 0 := sInvW_len hs2
  have hr1' : (r1.read ((10 : Nat) : Int)).2.read ((1 : Nat) : Int)
      = ((r1.read ((10 : Nat) : Int)).2).readFromBuffer (-1) := by
    rw [Reader.read, if_neg (by norm_num), if_neg (by norm_num), if_neg ?_,
      if_pos heof3]
    rw [Int.toNat_natCast, hlen2]
    norm_num
  obtain ⟨do1, ds, -⟩ := rfb_drain_sinv hs2
  have hdo : ((r1.read ((10 : Nat) : Int)).2.readFromBuffer (-1)).1 = [] := by
    rw [do1]
    simp
  refine ⟨hout1, hdlen, by rw [hr1', hdo], ?_⟩
  rw [hr1']
  have hp1 : ((r1.read ((10 : Nat) : Int)).2.readFromBuffer (-1)).2.pos
      = ((content.length + 0 : Nat) : Int) := ds.2.2.2.1
  have hp2 : (r1.read ((10 : Nat) : Int)).2.pos
      = ((content.length : Nat) : Int) := hs2.2.2.2.1
  rw [hp1, hp2]
  norm_num

/-- Witness for C4 at the concrete input: content `[1, 2, 3, 4, 5]` (size
5 ≥ 3), buffer size 2. -/
theorem c4_short_read_at_eof_witness :
    (3 ≤ ([1, 2, 3, 4, 5] : Bytes).length) ∧ (0 < 2) ∧
    (let r0 := Reader.init [1, 2, 3, 4, 5]
      (some ([1, 2, 3, 4, 5] : Bytes).length) 2 BINARY_NEWLINE
     let r1 := (r0.seekCore ((([1, 2, 3, 4, 5] : Bytes).length - 3 : Nat) : Int)
       WHENCE_START).2
     (r1.read 10).1 = ([1, 2, 3, 4, 5] : Bytes).drop
        (([1, 2, 3, 4, 5] : Bytes).length - 3) ∧
     (([1, 2, 3, 4, 5] : Bytes).drop
        (([1, 2, 3, 4, 5] : Bytes).length - 3)).length = 3 ∧
     ((r1.read 10).2.read 1).1 = [] ∧
     ((r1.read 10).2.read 1).2.pos = (r1.read 10).2.pos) :=
  ⟨by decide, by decide,
   c4_short_read_at_eof [1, 2, 3, 4, 5] 2 (by decide) (by decide)⟩

/-- The cursor after `read(size)` with `size < 0`, on any reader state: the
recorded size plus the number of bytes that were sitting in the buffer. -/
theorem read_neg_cursor (r : Reader) (sz : Int) (hsz : sz < 0) :
    (r.read sz).2.pos = (r.size : Int) + (r.part.len : Int) := by
  have hne0 : ¬ sz = 0 := by omega
  rw [Reader.read, if_neg hne0, if_pos hsz]
  dsimp only
  rw [rfb_neg]
  dsimp only
  rfl

/-- `readFromBuffer` never moves the cursor backwards. -/
theorem rfb_pos_ge (r : Reader) (sz : Int) : r.pos ≤ (r.readFromBuffer sz).2.pos := by
  rw [Reader.readFromBuffer]
  dsimp only
  omega

/-- `_fill_buffer` never moves the logical cursor. -/
theorem fillBuffer_pos (r : Reader) (sz : Int) : (r.fillBuffer sz).pos = r.pos := by
  unfold Reader.fillBuffer
  exact fillLoopF_pos _ _ _

/-- The position `seekCore` stores and returns is the computed target. -/
theorem seekCore_pos (r : Reader) (off wh : Int) :
    (r.seekCore off wh).2.pos = r.seekTarget off wh := rfl

/-- A `read` of any size keeps the cursor nonnegative. -/
theorem read_keeps_pos_nonneg (r : Reader) (sz : Int) (h : 0 ≤ r.pos) :
    0 ≤ (r.read sz).2.pos := by
  by_cases h0 : sz = 0
  · rw [Reader.read, if_pos h0]
    exact h
  · by_cases hneg : sz < 0
    · rw [read_neg_cursor r sz hneg]
      have h1 : (0 : Int) ≤ (r.size : Int) := Int.natCast_nonneg _
      have h2 : (0 : Int) ≤ (r.part.len : Int) := Int.natCast_nonneg _
      omega
    · rw [Reader.read, if_neg h0, if_neg hneg]
      by_cases hb : sz.toNat ≤ r.part.len
      · rw [if_pos hb]
        exact le_trans h (rfb_pos_ge r sz)
      · rw [if_neg hb]
        by_cases he : r.eof = true
        · rw [if_pos he]
          exact le_trans h (rfb_pos_ge r (-1))
        · rw [if_neg he]
          refine le_trans ?_ (rfb_pos_ge (r.fillBuffer sz) sz)
          rw [fillBuffer_pos]
          exact h

/-- Running a trace whose seeks all land at nonnegative targets keeps the
cursor nonnegative. -/
theorem runOps_pos_nonneg :
    ∀ (ops : List ROp) (r : Reader), 0 ≤ r.pos → seeksOk r ops = true →
      0 ≤ (runOps r ops).pos := by
  intro ops
  induction ops with
  | nil => exact fun r h _ => h
  | cons op rest ih =>
    intro r h hok
    rw [seeksOk.eq_def, Bool.and_eq_true] at hok
    obtain ⟨hok1, hok2⟩ := hok
    rw [runOps]
    refine ih _ ?_ hok2
    cases op with
    | rread sz => exact read_keeps_pos_nonneg r sz h
    | rseek off wh =>
      show 0 ≤ (stepOp r (ROp.rseek off wh)).pos
      rw [stepOp]
      unfold Reader.seek
      by_cases hw : wh ∈ WHENCE_CHOICES
      · rw [if_pos hw]
        dsimp only
        rw [seekCore_pos]
        dsimp only at hok1
        rw [if_pos hw] at hok1
        exact of_decide_eq_true hok1
      · rw [if_neg hw]
        exact h

end ASB

namespace ASB

/-- Amendment of C6: the cursor stays nonnegative after every public
Reader operation provided every (valid-whence) seek in the trace computes a
nonnegative target position; and immediately after a read with `size < 0`
the cursor equals the recorded remote size PLUS the number of bytes that
were buffered, so it equals the size exactly when the buffer was empty (as
originally stated — negative seek targets allowed, and tell() equal to the
size even over a non-empty buffer — the claim fails on the code). -/
theorem c6_amended_cursor_invariant (content : Bytes) (props : Option Nat)
    (bufferSize : Nat) (ops : List ROp)
    (h : seeksOk (Reader.init content props bufferSize BINARY_NEWLINE) ops
      = true) (sz : Int) (hsz : sz < 0) :
    0 ≤ (runOps (Reader.init content props bufferSize BINARY_NEWLINE) ops).pos ∧
    ((runOps (Reader.init content props bufferSize BINARY_NEWLINE) ops).read
        sz).2.pos
      = ((runOps (Reader.init content props bufferSize BINARY_NEWLINE)
          ops).size : Int)
        + ((runOps (Reader.init content props bufferSize BINARY_NEWLINE)
            ops).part.len : Int) := by
  refine ⟨runOps_pos_nonneg ops _ le_rfl h, ?_⟩
  exact read_neg_cursor _ sz hsz

/-- Witness for the amended C6 at a concrete trace: content `[1,2,3]`,
one valid seek to position 1, then `read(-1)`. -/
theorem c6_amended_cursor_invariant_witness :
    seeksOk (Reader.init [1, 2, 3] (some 3) 4 BINARY_NEWLINE)
        [ROp.rseek 1 0] = true ∧
    (0 ≤ (runOps (Reader.init [1, 2, 3] (some 3) 4 BINARY_NEWLINE)
        [ROp.rseek 1 0]).pos ∧
    ((runOps (Reader.init [1, 2, 3] (some 3) 4 BINARY_NEWLINE)
        [ROp.rseek 1 0]).read (-1)).2.pos
      = ((runOps (Reader.init [1, 2, 3] (some 3) 4 BINARY_NEWLINE)
          [ROp.rseek 1 0]).size : Int)
        + ((runOps (Reader.init [1, 2, 3] (some 3) 4 BINARY_NEWLINE)
            [ROp.rseek 1 0]).part.len : Int)) :=
  ⟨by decide,
   c6_amended_cursor_invariant [1, 2, 3] (some 3) 4 [ROp.rseek 1 0]
     (by decide) (-1) (by decide)⟩

end ASB

namespace ASB

/-- C1: on a Writer, `write(b"hello")` then `write(b"world")` leaves the
remote blob containing exactly `b"world"`, not `b"helloworld"`; `tell()`
afterwards returns 10; each write replaces the remote content and only the
local running size counter accumulates. -/
theorem c1_write_replaces (initial : Bytes) :
    (((Writer.init initial).write (.binary HELLO) true).2.write
        (.binary WORLD) true).2.remote = WORLD ∧
    (((Writer.init initial).write (.binary HELLO) true).2.write
        (.binary WORLD) true).2.remote ≠ HELLO ++ WORLD ∧
    (((Writer.init initial).write (.binary HELLO) true).2.write
        (.binary WORLD) true).2.tell = 10 := by
  have h1 : (((Writer.init initial).write (.binary HELLO) true).2.write
      (.binary WORLD) true).2.remote = WORLD := rfl
  exact ⟨h1, by rw [h1]; decide, rfl⟩

/-- C5: over content `b"ab\ncd\nef"` with terminator `b"\n"`, sequential
`readline(-1)` calls return `b"ab\n"`, `b"cd\n"`, `b"ef"` (the last line
without terminator), and every further call returns empty bytes with the
state unchanged. -/
theorem c5_readline_lines :
    (Reader.init ABCDEF_LINES (some ABCDEF_LINES.length) DEFAULT_BUFFER_SIZE
        BINARY_NEWLINE).readlineOk.1 = [97, 98, 10] ∧
    (Reader.init ABCDEF_LINES (some ABCDEF_LINES.length) DEFAULT_BUFFER_SIZE
        BINARY_NEWLINE).readlineOk.2.readlineOk.1 = [99, 100, 10] ∧
    (Reader.init ABCDEF_LINES (some ABCDEF_LINES.length) DEFAULT_BUFFER_SIZE
        BINARY_NEWLINE).readlineOk.2.readlineOk.2.readlineOk.1 = [101, 102] ∧
    (Reader.init ABCDEF_LINES (some ABCDEF_LINES.length) DEFAULT_BUFFER_SIZE
        BINARY_NEWLINE).readlineOk.2.readlineOk.2.readlineOk.2.readlineOk.1
      = [] ∧
    (Reader.init ABCDEF_LINES (some ABCDEF_LINES.length) DEFAULT_BUFFER_SIZE
        BINARY_NEWLINE).readlineOk.2.readlineOk.2.readlineOk.2.readlineOk.2
      = (Reader.init ABCDEF_LINES (some ABCDEF_LINES.length)
          DEFAULT_BUFFER_SIZE BINARY_NEWLINE).readlineOk.2.readlineOk.2.readlineOk.2 := by
  refine ⟨by decide, by decide, by decide, by decide, by decide⟩

/-- C7: an unsupported open mode raises `NotImplementedError`, a whence
outside the three allowed values raises `ValueError`, and a readline limit
other than `-1` raises `NotImplementedError`; each failure is immediate,
with no remote call and no state change (the error is returned before any
mutation or download). -/
theorem c7_unsupported_fail_fast (mode : String) (h1 : mode ≠ READ_BINARY)
    (h2 : mode ≠ WRITE_BINARY) (content writerRemote : Bytes)
    (props : Option Nat) (bufferSize : Nat) (r : Reader) (offset whence : Int)
    (hw : whence ∉ WHENCE_CHOICES) (limit : Int) (hl : limit ≠ -1) :
    asbOpen content props writerRemote mode bufferSize
        = .error .notImplemented ∧
    r.seek offset whence = .error .valueError ∧
    r.readline limit = .error .notImplemented := by
  refine ⟨?_, ?_, ?_⟩
  · simp [asbOpen, h1, h2]
  · simp [Reader.seek, hw]
  · simp [Reader.readline, hl]

/-- Witness for C7 at the concrete inputs mode `"rwb"`, whence `3`,
limit `0`. -/
theorem c7_unsupported_fail_fast_witness :
    asbOpen [] none [] "rwb" 0 = .error .notImplemented ∧
    (Reader.init [] none 0 BINARY_NEWLINE).seek 0 3 = .error .valueError ∧
    (Reader.init [] none 0 BINARY_NEWLINE).readline 0
        = .error .notImplemented := by
  have h := c7_unsupported_fail_fast "rwb" (by decide) (by decide) [] []
    none 0 (Reader.init [] none 0 BINARY_NEWLINE) 0 3 (by decide) 0 (by decide)
  exact h

/-- C8: a failed blob-property lookup at construction does not raise: the
Reader is created with size 0, and `read(-1)` on it returns empty bytes
without issuing any remote download call. -/
theorem c8_missing_blob_tolerance (content : Bytes) (bufferSize : Nat) :
    (Reader.init content none bufferSize BINARY_NEWLINE).size = 0 ∧
    ((Reader.init content none bufferSize BINARY_NEWLINE).read (-1)).1 = [] ∧
    ((Reader.init content none bufferSize BINARY_NEWLINE).read
        (-1)).2.raw.downloads = 0 := by
  exact ⟨rfl, rfl, rfl⟩

/-- C9: `Writer.write` increments the running size counter before issuing
the upload, so when the upload raises a transport error the counter has
already grown by the payload length and `tell()` includes the failed
write's length, while the remote content is unchanged. -/
theorem c9_counter_grows_on_failed_upload (w : Writer) (b : Bytes) :
    (w.write (.binary b) false).1 = .error .transport ∧
    (w.write (.binary b) false).2.totalSize = w.totalSize + b.length ∧
    (w.write (.binary b) false).2.tell = w.totalSize + b.length ∧
    (w.write (.binary b) false).2.remote = w.remote := by
  exact ⟨rfl, rfl, rfl, rfl⟩

/-- C10: after `Writer.close()` the `closed` property is true, yet a
further `write(b)` still performs the upload (the remote content becomes
`b`) and returns `len(b)`, because close clears only the service-client
reference while the blob handle is retained. -/
theorem c10_write_after_close (w : Writer) (b : Bytes) :
    w.close.closed = true ∧
    (w.close.write (.binary b) true).1 = .ok b.length ∧
    (w.close.write (.binary b) true).2.remote = b := by
  refine ⟨?_, rfl, rfl⟩
  unfold Writer.close
  split
  · assumption
  · rfl

/-- Counterexample to C6 as stated: on a six-byte blob with buffer size 4,
the one-seek trace `seek(-5, START)` leaves the cursor at `-5 < 0`, and the
trace `read(2); read(-1)` ends with `tell() = 8` while the remote size is 6
(the buffered unread bytes are drained after the cursor is set to the
size), so neither `0 ≤ cursor` nor `tell() == size` after `read(-1)` holds
of every trace. -/
theorem c6_counterexample :
    (runOps (Reader.init [0, 1, 2, 3, 4, 5] (some 6) 4 BINARY_NEWLINE)
        [ROp.rseek (-5) 0]).pos < 0 ∧
    (runOps (Reader.init [0, 1, 2, 3, 4, 5] (some 6) 4 BINARY_NEWLINE)
        [ROp.rread 2, ROp.rread (-1)]).pos = 8 ∧
    (runOps (Reader.init [0, 1, 2, 3, 4, 5] (some 6) 4 BINARY_NEWLINE)
        [ROp.rread 2, ROp.rread (-1)]).size = 6 := by
  exact ⟨by decide, by decide, by decide⟩

end ASB
